import Mathlib

/-!
Verification of the orchestrator-workers scheduler subsystem of the
`otel-orchestrator-project` (TypeScript sources under
`orchestrator-workers/src`).  The definitions below are a shallow embedding
of the data model (`types.ts`), the orchestrator (`orchestrator.ts`), the
workers (`workers/*.ts`) and the batch executor (`workerExecutor.ts`).

Modelling conventions:
* TypeScript string-union types become Lean inductives (`WorkerType`,
  `FileOperation`) or stay `String` where the code switches on strings
  (`FileAnalysis.type`).
* Optional fields (`errors?`, `warnings?`, `originalContent?`,
  `newContent?`) become `Option`.
* The free-form LLM prompt text (`instructions`, the `create*Instructions`
  helpers) is out of scope: no claim inspects it, so the `instructions`
  field is omitted from the embedded task record.
* External effects (file reads, the Anthropic completion call, `JSON.parse`
  validation, and the pure regex code-block extraction) are modelled by a
  `WorkerBehaviour` oracle recording the outcome of each call; a `throw` in
  the TypeScript source is an `Except.error` outcome.
-/

namespace OtelOrch

/-- `WorkerType` from `types.ts`: the seven task/worker categories. -/
inductive WorkerType where
  | dependency
  | config
  | http
  | service
  | database
  | cache
  | externalApi
deriving DecidableEq, Repr

/-- The string tag of a worker type, as used in generated task ids. -/
def WorkerType.str : WorkerType → String
  | .dependency => "dependency"
  | .config => "config"
  | .http => "http"
  | .service => "service"
  | .database => "database"
  | .cache => "cache"
  | .externalApi => "external-api"

/-- `FileAnalysis` from `types.ts`; only the fields the orchestrator reads
(`path`, `type`) are kept.  `type` stays a `String` because
`selectWorkerType` switches on the string value. -/
structure FileAnalysis where
  path : String
  type : String
deriving DecidableEq, Repr

/-- `DependencyInfo.missing` from `types.ts` (the `current` and `required`
package lists are only echoed into prompt text, which is out of scope). -/
structure DependencyInfo where
  missing : List String
deriving DecidableEq, Repr

/-- `CodebaseAnalysis` from `types.ts` (fields used by the orchestrator). -/
structure CodebaseAnalysis where
  files : List FileAnalysis
  dependencies : DependencyInfo
  framework : String
  entryPoint : String
deriving DecidableEq, Repr

/-- `TaskContext` from `types.ts`. -/
structure TaskContext where
  allFiles : List String
  relevantFiles : List FileAnalysis
  dependencies : DependencyInfo
deriving DecidableEq, Repr

/-- `InstrumentationTask` from `types.ts` (prompt `instructions` omitted,
see module comment). -/
structure InstrumentationTask where
  id : String
  type : WorkerType
  targetFile : String
  priority : Nat
  dependencies : List String
  context : TaskContext
deriving DecidableEq, Repr

/-- The `operation` tag of a `FileChange`. -/
inductive FileOperation where
  | create
  | modify
  | none
deriving DecidableEq, Repr

/-- `FileChange` from `types.ts`. -/
structure FileChange where
  path : String
  operation : FileOperation
  originalContent : Option String
  newContent : Option String
  description : String
deriving DecidableEq, Repr

/-- `WorkerResult` from `types.ts`.  `errors` and `warnings` are optional
in the TypeScript interface, hence `Option`. -/
structure WorkerResult where
  taskId : String
  workerType : WorkerType
  success : Bool
  changes : List FileChange
  message : String
  errors : Option (List String)
  warnings : Option (List String)
deriving DecidableEq, Repr

/-- `Orchestrator.createTaskContext`. -/
def createTaskContext (analysis : CodebaseAnalysis)
    (relevantFiles : List FileAnalysis) : TaskContext :=
  { allFiles := analysis.files.map (fun f => f.path)
    relevantFiles := relevantFiles
    dependencies := analysis.dependencies }

/-- JavaScript `String.prototype.includes`: substring containment. -/
def strIncludes (s sub : String) : Bool := decide (sub.data <:+: s.data)

/-- `Orchestrator.selectWorkerType`: maps a file descriptor to the worker
category that should instrument it, or `none` for unmapped roles. -/
def selectWorkerType (file : FileAnalysis) : Option WorkerType :=
  if file.type = "route" then some .http
  else if file.type = "service" then some .service
  else if file.type = "utility" then
    if strIncludes file.path "database" then some .database
    else if strIncludes file.path "cache" then some .cache
    else if strIncludes file.path "external" || strIncludes file.path "api" then
      some .externalApi
    else Option.none
  else Option.none

/-- The loop body of `Orchestrator.createFileInstrumentationTasks`: walks the
file list threading the task-id counter, emitting one task per mapped file. -/
def createFileTasksGo (analysis : CodebaseAnalysis) (configTaskId : String) :
    List FileAnalysis → Nat → List InstrumentationTask
  | [], _ => []
  | f :: fs, taskId =>
    match selectWorkerType f with
    | some wt =>
      { id := wt.str ++ "-" ++ toString (taskId + 1)
        type := wt
        targetFile := f.path
        priority := 3
        dependencies := [configTaskId]
        context := createTaskContext analysis [f] } ::
        createFileTasksGo analysis configTaskId fs (taskId + 1)
    | Option.none => createFileTasksGo analysis configTaskId fs taskId

/-- `Orchestrator.createFileInstrumentationTasks`. -/
def createFileInstrumentationTasks (analysis : CodebaseAnalysis)
    (configTaskId : String) (startingId : Nat) : List InstrumentationTask :=
  createFileTasksGo analysis configTaskId analysis.files startingId

/-- The task list built by `Orchestrator.createPlan` (before the execution
order is computed).  The id counter starts at 0 and `generateTaskId`
pre-increments, so the dependency task (if any) is `dependency-1`, the
config task is `config-1` or `config-2`, and file tasks continue from
there. -/
def createPlanTasks (analysis : CodebaseAnalysis) : List InstrumentationTask :=
  let depTasks : List InstrumentationTask :=
    if analysis.dependencies.missing.length > 0 then
      [{ id := WorkerType.dependency.str ++ "-" ++ toString 1
         type := .dependency
         targetFile := "package.json"
         priority := 1
         dependencies := []
         context := createTaskContext analysis [] }]
    else []
  let counterAfterDep := depTasks.length
  let configTaskId := WorkerType.config.str ++ "-" ++ toString (counterAfterDep + 1)
  let configTask : InstrumentationTask :=
    { id := configTaskId
      type := .config
      targetFile := "src/tracing.ts"
      priority := 2
      dependencies := (depTasks.filter (fun t => t.type = .dependency)).map
        (fun t => t.id)
      context := createTaskContext analysis [] }
  depTasks ++ [configTask] ++
    createFileInstrumentationTasks analysis configTaskId (counterAfterDep + 1)

/-- The batch-eligibility predicate of `calculateExecutionOrder`:
`task.dependencies.every(dep => completed.has(dep))`. -/
def depsDone (completed : List String) (t : InstrumentationTask) : Bool :=
  t.dependencies.all (fun d => completed.contains d)

/-- The `while` loop of `Orchestrator.calculateExecutionOrder`, mirrored as
well-founded recursion on the length of `remaining` (each iteration either
removes the non-empty batch from `remaining` or throws). -/
def calcOrderLoop (remaining : List InstrumentationTask)
    (completed : List String) : Except String (List (List String)) :=
  if h : remaining.isEmpty then .ok []
  else
    let batch := remaining.filter (depsDone completed)
    if hb : batch.isEmpty then .error "Circular dependency detected in tasks"
    else
      match calcOrderLoop (remaining.filter (fun t => !(depsDone completed t)))
          (completed ++ batch.map (fun t => t.id)) with
      | .ok rest => .ok (batch.map (fun t => t.id) :: rest)
      | .error e => .error e
termination_by remaining.length
decreasing_by
  have hsub : (remaining.filter (fun t => !(depsDone completed t))).Sublist remaining :=
    List.filter_sublist remaining
  have hne : remaining.filter (depsDone completed) ≠ [] := by
    intro hnil
    exact hb (List.isEmpty_iff.mpr hnil)
  obtain ⟨x, hx⟩ := List.exists_mem_of_ne_nil _ hne
  have hxmem := (List.mem_filter.mp hx).1
  have hxp := (List.mem_filter.mp hx).2
  apply Nat.lt_of_le_of_ne hsub.length_le
  intro hlen
  have heq := hsub.eq_of_length hlen
  have hxf : x ∈ remaining.filter (fun t => !(depsDone completed t)) := by
    rw [heq]; exact hxmem
  have := (List.mem_filter.mp hxf).2
  simp [hxp] at this

/-- `Orchestrator.calculateExecutionOrder`: layered Kahn-style topological
batching; `Except.error` models the thrown `Error`. -/
def calculateExecutionOrder (tasks : List InstrumentationTask) :
    Except String (List (List String)) :=
  calcOrderLoop tasks []

/-- `Orchestrator.estimateDuration`. -/
def estimateDuration (tasks : List InstrumentationTask) : String :=
  let seconds := tasks.length * 10
  if seconds < 60 then toString seconds ++ " seconds"
  else
    let minutes := (seconds + 59) / 60
    toString minutes ++ " minute" ++ (if minutes > 1 then "s" else "")

/-- `OrchestrationPlan` from `types.ts`. -/
structure OrchestrationPlan where
  analysis : CodebaseAnalysis
  tasks : List InstrumentationTask
  executionOrder : List (List String)
  estimatedDuration : String
deriving DecidableEq, Repr

/-- `Orchestrator.createPlan`; the thrown cycle error surfaces as
`Except.error`. -/
def createPlan (analysis : CodebaseAnalysis) : Except String OrchestrationPlan :=
  let tasks := createPlanTasks analysis
  match calculateExecutionOrder tasks with
  | .ok order =>
    .ok { analysis := analysis
          tasks := tasks
          executionOrder := order
          estimatedDuration := estimateDuration tasks }
  | .error e => .error e

/-- `OrchestrationResult` from `types.ts` (the derived `summary` field is
omitted; no claim concerns it). -/
structure OrchestrationResult where
  success : Bool
  plan : OrchestrationPlan
  workerResults : List WorkerResult
  errors : List String

/-- Oracle for one worker invocation: the outcomes of the external calls a
worker makes (`FileSystemUtil.readFile`, `client.generateCompletion`,
`JSON.parse` validation) and the pure regex extraction
(`extractJSON` / `extractCode`).  An `Except.error` outcome models a thrown
exception (carrying the message string the worker's `catch` would see). -/
structure WorkerBehaviour where
  readFileResult : Except String String
  completionResult : Except String String
  extractResult : String → String
  jsonParseCheck : String → Except String Unit

/-- `BaseWorker.createSuccessResult`. -/
def createSuccessResult (workerType : WorkerType) (taskId : String)
    (changes : List FileChange) (message : String) : WorkerResult :=
  { taskId := taskId
    workerType := workerType
    success := true
    changes := changes
    message := message
    errors := some []
    warnings := some [] }

/-- `BaseWorker.createFailureResult` (the `changes` parameter defaults to
`[]` in the source; every worker call site uses that default). -/
def createFailureResult (workerType : WorkerType) (taskId : String)
    (error : String) (changes : List FileChange) : WorkerResult :=
  { taskId := taskId
    workerType := workerType
    success := false
    changes := changes
    message := "Task failed"
    errors := some [error]
    warnings := Option.none }

/-- The `try` block of `DependencyWorker.execute`: read `package.json`,
call the LLM, extract JSON, validate it, build the success result; the
first throwing step aborts the block with its error. -/
def dependencyWorkerBody (beh : WorkerBehaviour)
    (task : InstrumentationTask) : Except String WorkerResult :=
  match beh.readFileResult with
  | .error e => .error e
  | .ok originalContent =>
    match beh.completionResult with
    | .error e => .error e
    | .ok response =>
      let newContent := beh.extractResult response
      match beh.jsonParseCheck newContent with
      | .error e => .error e
      | .ok _ =>
        .ok (createSuccessResult .dependency task.id
          [{ path := task.targetFile
             operation := .modify
             originalContent := some originalContent
             newContent := some newContent
             description := "Added OpenTelemetry dependencies to package.json" }]
          "Successfully updated package.json with OpenTelemetry dependencies")

/-- `DependencyWorker.execute`: the `try`/`catch` wrapper around
`dependencyWorkerBody`. -/
def dependencyWorkerExecute (beh : WorkerBehaviour)
    (task : InstrumentationTask) : WorkerResult :=
  match dependencyWorkerBody beh task with
  | .ok r => r
  | .error e => createFailureResult .dependency task.id e []

/-- The `try` block of `ConfigWorker.execute`: call the LLM, extract the
code block, build the success result (no file read, no JSON validation). -/
def configWorkerBody (beh : WorkerBehaviour)
    (task : InstrumentationTask) : Except String WorkerResult :=
  match beh.completionResult with
  | .error e => .error e
  | .ok response =>
    let newContent := beh.extractResult response
    .ok (createSuccessResult .config task.id
      [{ path := task.targetFile
         operation := .create
         originalContent := Option.none
         newContent := some newContent
         description := "Created OpenTelemetry tracing initialization file" }]
      "Successfully created tracing configuration file")

/-- `ConfigWorker.execute`. -/
def configWorkerExecute (beh : WorkerBehaviour)
    (task : InstrumentationTask) : WorkerResult :=
  match configWorkerBody beh task with
  | .ok r => r
  | .error e => createFailureResult .config task.id e []

/-- `FileInstrumentationWorker.getInstrumentationDescription`. -/
def getInstrumentationDescription : WorkerType → String
  | .http => "Added OpenTelemetry spans to HTTP routes"
  | .service => "Added OpenTelemetry spans to service methods"
  | .database => "Added OpenTelemetry spans to database operations"
  | .cache => "Added OpenTelemetry spans to cache operations"
  | .externalApi => "Added OpenTelemetry spans to external API calls"
  | .dependency => "Updated dependencies"
  | .config => "Created configuration"

/-- The `try` block of `FileInstrumentationWorker.execute`: read the target
file, call the LLM, extract the code block, build the success result. -/
def fileInstrumentationWorkerBody (workerType : WorkerType)
    (beh : WorkerBehaviour) (task : InstrumentationTask) :
    Except String WorkerResult :=
  match beh.readFileResult with
  | .error e => .error e
  | .ok originalContent =>
    match beh.completionResult with
    | .error e => .error e
    | .ok response =>
      let newContent := beh.extractResult response
      .ok (createSuccessResult workerType task.id
        [{ path := task.targetFile
           operation := .modify
           originalContent := some originalContent
           newContent := some newContent
           description := getInstrumentationDescription workerType }]
        ("Successfully instrumented " ++ task.targetFile))

/-- `FileInstrumentationWorker.execute`. -/
def fileInstrumentationWorkerExecute (workerType : WorkerType)
    (beh : WorkerBehaviour) (task : InstrumentationTask) : WorkerResult :=
  match fileInstrumentationWorkerBody workerType beh task with
  | .ok r => r
  | .error e => createFailureResult workerType task.id e []

/-- `WorkerExecutor.executeTask`: dispatch on the task type to the matching
worker.  The behaviour oracle is per task (each task's external calls may
have different outcomes). -/
def executeTask (beh : InstrumentationTask → WorkerBehaviour)
    (task : InstrumentationTask) : WorkerResult :=
  if task.type = .dependency then dependencyWorkerExecute (beh task) task
  else if task.type = .config then configWorkerExecute (beh task) task
  else fileInstrumentationWorkerExecute task.type (beh task) task

/-- The error-collection step of `WorkerExecutor.execute`:
`if (!result.success && result.errors) errors.push(...result.errors)`
(the source guards on `result.errors` being present; note a
present-but-empty array is truthy in JavaScript). -/
def collectErrors (es : List String) (r : WorkerResult) : List String :=
  if !r.success && r.errors.isSome then es ++ r.errors.getD [] else es

/-- One iteration of the batch loop in `WorkerExecutor.execute`: run every
task of the batch, append the results, and append the `errors` arrays of
the failed results. -/
def executeBatchStep (beh : InstrumentationTask → WorkerBehaviour)
    (tasks : List InstrumentationTask)
    (acc : List WorkerResult × List String) (batchIds : List String) :
    List WorkerResult × List String :=
  let batchTasks := tasks.filter (fun task => batchIds.contains task.id)
  let batchResults := batchTasks.map (fun task => executeTask beh task)
  let newErrors := batchResults.foldl collectErrors acc.2
  (acc.1 ++ batchResults, newErrors)

/-- `WorkerExecutor.execute`: run every batch in order, collect all worker
results and failed-task errors, and report overall success iff every
worker result succeeded. -/
def workerExecutorExecute (beh : InstrumentationTask → WorkerBehaviour)
    (plan : OrchestrationPlan) : OrchestrationResult :=
  let final := plan.executionOrder.foldl (executeBatchStep beh plan.tasks) ([], [])
  { success := final.1.all (fun r => r.success)
    plan := plan
    workerResults := final.1
    errors := final.2 }

/-- Direct dependency between tasks of a given task list: `t` directly
depends on `u` when both belong to the list and `u`'s id appears in `t`'s
prerequisite list. -/
def taskDep (tasks : List InstrumentationTask)
    (t u : InstrumentationTask) : Prop :=
  t ∈ tasks ∧ u ∈ tasks ∧ u.id ∈ t.dependencies

/-! ### Scheduler lemmas -/

/-- The concatenation of the batches returned by the scheduling loop is a
permutation of the ids of the remaining tasks. -/
theorem calcOrderLoop_flatten_perm :
    ∀ (n : Nat) (remaining : List InstrumentationTask) (completed : List String)
      (os : List (List String)), remaining.length ≤ n →
      calcOrderLoop remaining completed = .ok os →
      os.flatten.Perm (remaining.map (fun t => t.id)) := by
  intro n
  induction n with
  | zero =>
    intro remaining completed os hlen h
    have hnil : remaining = [] := List.length_eq_zero.mp (Nat.le_zero.mp hlen)
    subst hnil
    rw [calcOrderLoop.eq_def] at h
    split at h
    · cases h
      simp
    · next hcond => exact absurd rfl hcond
  | succ m ih =>
    intro remaining completed os hlen h
    rw [calcOrderLoop.eq_def] at h
    split at h
    · next hcond =>
      have hnil : remaining = [] := List.isEmpty_iff.mp hcond
      subst hnil
      cases h
      simp
    · dsimp only at h
      split at h
      · exact absurd h (by simp)
      · next hb =>
        split at h
        · next rest heq =>
          cases h
          have hlt : (remaining.filter
              (fun t => !(depsDone completed t))).length < remaining.length := by
            have hsub := List.filter_sublist
              (p := fun t => !(depsDone completed t)) remaining
            have hne : remaining.filter (depsDone completed) ≠ [] := by
              intro hnil'
              exact hb (List.isEmpty_iff.mpr hnil')
            obtain ⟨x, hx⟩ := List.exists_mem_of_ne_nil _ hne
            have hxmem := (List.mem_filter.mp hx).1
            have hxp := (List.mem_filter.mp hx).2
            apply Nat.lt_of_le_of_ne hsub.length_le
            intro hlen'
            have heq' := hsub.eq_of_length hlen'
            have hxf : x ∈ remaining.filter (fun t => !(depsDone completed t)) := by
              rw [heq']; exact hxmem
            have := (List.mem_filter.mp hxf).2
            simp [hxp] at this
          have hrec := ih _ _ _ (Nat.le_of_lt_succ (Nat.lt_of_lt_of_le hlt hlen)) heq
          have hpart := (List.filter_append_perm (depsDone completed) remaining).map
            (fun t => t.id)
          rw [List.map_append] at hpart
          refine List.Perm.trans ?_ hpart
          simp only [List.flatten_cons]
          exact List.Perm.append_left _ hrec
        · exact absurd h (by simp)

/-- The scheduling loop always terminates with either a batch list or the
circular-dependency error. -/
theorem calcOrderLoop_total :
    ∀ (n : Nat) (remaining : List InstrumentationTask) (completed : List String),
      remaining.length ≤ n →
      (∃ os, calcOrderLoop remaining completed = .ok os) ∨
        calcOrderLoop remaining completed =
          .error "Circular dependency detected in tasks" := by
  intro n
  induction n with
  | zero =>
    intro remaining completed hlen
    have hnil : remaining = [] := List.length_eq_zero.mp (Nat.le_zero.mp hlen)
    subst hnil
    left
    exact ⟨[], by simp [calcOrderLoop]⟩
  | succ m ih =>
    intro remaining completed hlen
    by_cases hnil : remaining = []
    · subst hnil
      left
      exact ⟨[], by simp [calcOrderLoop]⟩
    · by_cases hb : remaining.filter (depsDone completed) = []
      · right
        rw [calcOrderLoop]
        simp [List.isEmpty_iff, hnil, hb]
      · have hlt : (remaining.filter
            (fun t => !(depsDone completed t))).length < remaining.length := by
          have hsub := List.filter_sublist
            (p := fun t => !(depsDone completed t)) remaining
          obtain ⟨x, hx⟩ := List.exists_mem_of_ne_nil _ hb
          have hxmem := (List.mem_filter.mp hx).1
          have hxp := (List.mem_filter.mp hx).2
          apply Nat.lt_of_le_of_ne hsub.length_le
          intro hlen'
          have heq' := hsub.eq_of_length hlen'
          have hxf : x ∈ remaining.filter (fun t => !(depsDone completed t)) := by
            rw [heq']; exact hxmem
          have := (List.mem_filter.mp hxf).2
          simp [hxp] at this
        have hrec := ih (remaining.filter (fun t => !(depsDone completed t)))
          (completed ++ (remaining.filter (depsDone completed)).map (fun t => t.id))
          (Nat.le_of_lt_succ (Nat.lt_of_lt_of_le hlt hlen))
        rcases hrec with ⟨os, hos⟩ | herr
        · left
          refine ⟨(remaining.filter (depsDone completed)).map (fun t => t.id) :: os, ?_⟩
          rw [calcOrderLoop.eq_def]
          simp [List.isEmpty_iff, hnil, hb, hos]
        · right
          rw [calcOrderLoop.eq_def]
          simp [List.isEmpty_iff, hnil, hb, herr]

/-- Removing the ready batch strictly shrinks the remaining list when the
batch is non-empty. -/
theorem filter_not_depsDone_length_lt (remaining : List InstrumentationTask)
    (completed : List String)
    (hb : remaining.filter (depsDone completed) ≠ []) :
    (remaining.filter (fun t => !(depsDone completed t))).length <
      remaining.length := by
  have hsub := List.filter_sublist (p := fun t => !(depsDone completed t)) remaining
  obtain ⟨x, hx⟩ := List.exists_mem_of_ne_nil _ hb
  have hxmem := (List.mem_filter.mp hx).1
  have hxp := (List.mem_filter.mp hx).2
  apply Nat.lt_of_le_of_ne hsub.length_le
  intro hlen
  have heq := hsub.eq_of_length hlen
  have hxf : x ∈ remaining.filter (fun t => !(depsDone completed t)) := by
    rw [heq]; exact hxmem
  have := (List.mem_filter.mp hxf).2
  simp [hxp] at this

/-- A transitive chain of flipped dependency steps on members of `l`,
viewed on the subtype, projects to a transitive dependency chain on the
underlying tasks (in the forward direction). -/
theorem transGen_flip_val {l : List InstrumentationTask}
    {a b : {t // t ∈ l}}
    (h : Relation.TransGen (fun x y : {t // t ∈ l} => taskDep l y.1 x.1) a b) :
    Relation.TransGen (taskDep l) b.1 a.1 := by
  induction h with
  | single h => exact Relation.TransGen.single h
  | tail _ hstep ih => exact Relation.TransGen.head hstep ih

/-- Progress: if every unmet prerequisite of a remaining task is the id of
a remaining task, and the dependency relation on the remaining tasks has no
cycle, then some remaining task has all its prerequisites completed. -/
theorem exists_ready (remaining : List InstrumentationTask)
    (completed : List String) (hne : remaining ≠ [])
    (hinv : ∀ t ∈ remaining, ∀ d ∈ t.dependencies,
      d ∈ completed ∨ ∃ u ∈ remaining, u.id = d)
    (hac : ∀ t, ¬ Relation.TransGen (taskDep remaining) t t) :
    ∃ t ∈ remaining, depsDone completed t = true := by
  haveI hfin : Finite {t // t ∈ remaining} := (remaining.finite_toSet).to_subtype
  haveI hirr : IsIrrefl {t // t ∈ remaining}
      (Relation.TransGen (fun x y : {t // t ∈ remaining} => taskDep remaining y.1 x.1)) := by
    constructor
    intro a ha
    exact hac a.1 (transGen_flip_val ha)
  have hwf := Finite.wellFounded_of_trans_of_irrefl
    (Relation.TransGen (fun x y : {t // t ∈ remaining} => taskDep remaining y.1 x.1))
  obtain ⟨x, hx⟩ := List.exists_mem_of_ne_nil _ hne
  obtain ⟨m, _, hmin⟩ := hwf.has_min Set.univ ⟨⟨x, hx⟩, trivial⟩
  refine ⟨m.1, m.2, ?_⟩
  rw [depsDone, List.all_eq_true]
  intro d hd
  rcases hinv m.1 m.2 d hd with hc | ⟨u, hum, hud⟩
  · exact List.elem_eq_true_of_mem hc
  · exfalso
    have hstep : taskDep remaining m.1 u := ⟨m.2, hum, by rw [hud]; exact hd⟩
    exact hmin ⟨u, hum⟩ trivial (Relation.TransGen.single hstep)

/-- On a task set whose unmet prerequisites all point at remaining tasks
and whose dependency relation is acyclic, the scheduling loop succeeds. -/
theorem calcOrderLoop_ok_of_acyclic :
    ∀ (n : Nat) (remaining : List InstrumentationTask) (completed : List String),
      remaining.length ≤ n →
      (∀ t ∈ remaining, ∀ d ∈ t.dependencies,
        d ∈ completed ∨ ∃ u ∈ remaining, u.id = d) →
      (∀ t, ¬ Relation.TransGen (taskDep remaining) t t) →
      ∃ os, calcOrderLoop remaining completed = .ok os := by
  intro n
  induction n with
  | zero =>
    intro remaining completed hlen _ _
    have hnil : remaining = [] := List.length_eq_zero.mp (Nat.le_zero.mp hlen)
    subst hnil
    exact ⟨[], by rw [calcOrderLoop.eq_def]; simp⟩
  | succ m ih =>
    intro remaining completed hlen hinv hac
    by_cases hnil : remaining = []
    · subst hnil
      exact ⟨[], by rw [calcOrderLoop.eq_def]; simp⟩
    · obtain ⟨t, htmem, htp⟩ := exists_ready remaining completed hnil hinv hac
      have hbne : remaining.filter (depsDone completed) ≠ [] := by
        intro h0
        have hmem : t ∈ remaining.filter (depsDone completed) :=
          List.mem_filter.mpr ⟨htmem, htp⟩
        rw [h0] at hmem
        exact absurd hmem (List.not_mem_nil t)
      have hinv' : ∀ t ∈ remaining.filter (fun t => !(depsDone completed t)),
          ∀ d ∈ t.dependencies,
          d ∈ completed ++ (remaining.filter (depsDone completed)).map
            (fun t => t.id) ∨
          ∃ u ∈ remaining.filter (fun t => !(depsDone completed t)), u.id = d := by
        intro s hsm d hd
        have hsm' := (List.mem_filter.mp hsm).1
        rcases hinv s hsm' d hd with hc | ⟨u, hum, hud⟩
        · left
          exact List.mem_append_left _ hc
        · by_cases hu : depsDone completed u
          · left
            apply List.mem_append_right
            rw [← hud]
            exact List.mem_map_of_mem _ (List.mem_filter.mpr ⟨hum, hu⟩)
          · right
            exact ⟨u, List.mem_filter.mpr ⟨hum, by simp [hu]⟩, hud⟩
      have hac' : ∀ s, ¬ Relation.TransGen
          (taskDep (remaining.filter (fun t => !(depsDone completed t)))) s s := by
        intro s hs
        apply hac s
        refine Relation.TransGen.mono ?_ hs
        intro a b hab
        exact ⟨(List.mem_filter.mp hab.1).1, (List.mem_filter.mp hab.2.1).1,
          hab.2.2⟩
      have hlt := filter_not_depsDone_length_lt remaining completed hbne
      obtain ⟨os, hos⟩ := ih _ _
        (Nat.le_of_lt_succ (Nat.lt_of_lt_of_le hlt hlen)) hinv' hac'
      refine ⟨(remaining.filter (depsDone completed)).map (fun t => t.id) :: os, ?_⟩
      rw [calcOrderLoop.eq_def]
      simp [List.isEmpty_iff, hnil, hbne, hos]

/-- Layering invariant of the scheduling loop: when the remaining tasks
have pairwise-distinct ids, every prerequisite of a task placed in batch
`N` is either already completed or appears in a strictly earlier batch. -/
theorem calcOrderLoop_layers :
    ∀ (n : Nat) (remaining : List InstrumentationTask) (completed : List String)
      (os : List (List String)), remaining.length ≤ n →
      (remaining.map (fun t => t.id)).Nodup →
      calcOrderLoop remaining completed = .ok os →
      ∀ t ∈ remaining, ∀ N : Nat, t.id ∈ os.getD N [] →
        ∀ d ∈ t.dependencies,
          d ∈ completed ∨ ∃ M, M < N ∧ d ∈ os.getD M [] := by
  intro n
  induction n with
  | zero =>
    intro remaining completed os hlen _ _ t ht
    have hnil : remaining = [] := List.length_eq_zero.mp (Nat.le_zero.mp hlen)
    subst hnil
    exact absurd ht (List.not_mem_nil t)
  | succ m ih =>
    intro remaining completed os hlen hnd h t ht N htN d hd
    rw [calcOrderLoop.eq_def] at h
    split at h
    · next hcond =>
      have hnil : remaining = [] := List.isEmpty_iff.mp hcond
      subst hnil
      exact absurd ht (List.not_mem_nil t)
    · dsimp only at h
      split at h
      · exact absurd h (by simp)
      · next hb =>
        split at h
        · next rest' heq =>
          cases h
          have hlt := filter_not_depsDone_length_lt remaining completed
            (fun h0 => hb (List.isEmpty_iff.mpr h0))
          have hndrest : ((remaining.filter
              (fun t => !(depsDone completed t))).map (fun t => t.id)).Nodup :=
            ((List.filter_sublist remaining).map (fun t => t.id)).nodup hnd
          match N with
          | 0 =>
            rw [List.getD_cons_zero] at htN
            obtain ⟨u, hu, huid⟩ := List.mem_map.mp htN
            have humem := (List.mem_filter.mp hu).1
            have hup := (List.mem_filter.mp hu).2
            have : u = t := List.inj_on_of_nodup_map hnd humem ht huid
            subst this
            left
            have := List.all_eq_true.mp hup d hd
            exact List.elem_iff.mp this
          | N + 1 =>
            rw [List.getD_cons_succ] at htN
            by_cases htb : depsDone completed t = true
            · -- t is in the current batch but its id shows up in a later
              -- batch: impossible, the later batches schedule only the
              -- not-yet-ready tasks, whose ids are distinct from t's.
              exfalso
              have hflat : t.id ∈ rest'.flatten := by
                by_cases hNlen : N < rest'.length
                · rw [List.getD_eq_getElem _ _ hNlen] at htN
                  exact List.mem_flatten.mpr ⟨_, List.getElem_mem hNlen, htN⟩
                · rw [List.getD_eq_default _ _ (Nat.le_of_not_lt hNlen)] at htN
                  exact absurd htN (List.not_mem_nil _)
              have hperm := calcOrderLoop_flatten_perm
                (remaining.filter (fun t => !(depsDone completed t))).length
                _ _ _ le_rfl heq
              have hidmem := hperm.mem_iff.mp hflat
              obtain ⟨u, hu, huid⟩ := List.mem_map.mp hidmem
              have humem := (List.mem_filter.mp hu).1
              have : u = t := List.inj_on_of_nodup_map hnd humem ht huid
              subst this
              have := (List.mem_filter.mp hu).2
              simp [htb] at this
            · have htrest : t ∈ remaining.filter
                  (fun t => !(depsDone completed t)) :=
                List.mem_filter.mpr ⟨ht, by simp [htb]⟩
              have hrec := ih _ _ _
                (Nat.le_of_lt_succ (Nat.lt_of_lt_of_le hlt hlen)) hndrest heq
                t htrest N htN d hd
              rcases hrec with hc | ⟨M, hM, hdm⟩
              · rcases List.mem_append.mp hc with hc1 | hc2
                · left
                  exact hc1
                · right
                  exact ⟨0, Nat.zero_lt_succ N, by rw [List.getD_cons_zero]; exact hc2⟩
              · right
                exact ⟨M + 1, Nat.succ_lt_succ hM, by
                  rw [List.getD_cons_succ]; exact hdm⟩
        · exact absurd h (by simp)

/-- A rank function that strictly decreases along every dependency edge
rules out transitive dependency cycles. -/
theorem noCycle_of_rank {r : InstrumentationTask → InstrumentationTask → Prop}
    (f : InstrumentationTask → Nat) (hf : ∀ a b, r a b → f b < f a) :
    ∀ t, ¬ Relation.TransGen r t t := by
  have hlt : ∀ a b, Relation.TransGen r a b → f b < f a := by
    intro a b h
    induction h with
    | single h => exact hf _ _ h
    | tail _ hstep ih => exact Nat.lt_trans (hf _ _ hstep) ih
  intro t ht
  exact Nat.lt_irrefl _ (hlt t t ht)

/-- An empty task context, used for concrete test inputs. -/
def sampleCtx : TaskContext :=
  { allFiles := [], relevantFiles := [], dependencies := { missing := [] } }

/-- Concrete task with id `a` and no prerequisites. -/
def taskA : InstrumentationTask :=
  { id := "a", type := .http, targetFile := "a.ts", priority := 3,
    dependencies := [], context := sampleCtx }

/-- Concrete task with id `b` depending on `a`. -/
def taskB : InstrumentationTask :=
  { id := "b", type := .http, targetFile := "b.ts", priority := 3,
    dependencies := ["a"], context := sampleCtx }

/-- Concrete task that shares id `a` with `taskA` but depends on `b`. -/
def taskA2 : InstrumentationTask :=
  { id := "a", type := .service, targetFile := "a2.ts", priority := 3,
    dependencies := ["b"], context := sampleCtx }

/-! ### Claim C1 -/

/-- C1: for every task list with pairwise-distinct task ids in which every
prerequisite id refers to a task in the list and no task transitively
depends on itself, `calculateExecutionOrder` returns a batch list whose
concatenation contains each task id exactly once (it is a duplicate-free
permutation of the task id list). -/
theorem claim1_scheduler_batches_permutation
    (tasks : List InstrumentationTask)
    (hnd : (tasks.map (fun t => t.id)).Nodup)
    (hclosed : ∀ t ∈ tasks, ∀ d ∈ t.dependencies, ∃ u ∈ tasks, u.id = d)
    (hacyclic : ∀ t, ¬ Relation.TransGen (taskDep tasks) t t) :
    ∃ order, calculateExecutionOrder tasks = .ok order ∧
      order.flatten.Perm (tasks.map (fun t => t.id)) ∧
      order.flatten.Nodup := by
  obtain ⟨os, hos⟩ := calcOrderLoop_ok_of_acyclic tasks.length tasks [] le_rfl
    (fun t ht d hd => Or.inr (hclosed t ht d hd)) hacyclic
  have hperm := calcOrderLoop_flatten_perm tasks.length tasks [] os le_rfl hos
  exact ⟨os, hos, hperm, hperm.nodup_iff.mpr hnd⟩

/-- Witness for C1 at the concrete two-task input `[taskA, taskB]`. -/
theorem claim1_witness :
    ∃ order, calculateExecutionOrder [taskA, taskB] = .ok order ∧
      order.flatten.Perm ([taskA, taskB].map (fun t => t.id)) ∧
      order.flatten.Nodup := by
  apply claim1_scheduler_batches_permutation
  · decide
  · decide
  · apply noCycle_of_rank (fun t => t.dependencies.length)
    intro a b hab
    obtain ⟨ha, hb, hid⟩ := hab
    simp only [List.mem_cons, List.not_mem_nil, or_false] at ha hb
    rcases ha with rfl | rfl <;> rcases hb with rfl | rfl <;>
      revert hid <;> decide

/-! ### Claim C2 -/

/-- C2 counterexample: with duplicate task ids the claim as stated fails.
On `[taskA, taskA2, taskB]` (two tasks share id `a`) the scheduler returns
`[[a], [b], [a]]`; `taskA2` is a task of the list whose id lies in batch 0,
yet its prerequisite `b` appears in no batch of index `< 0`. -/
theorem claim2_counterexample :
    calculateExecutionOrder [taskA, taskA2, taskB] = .ok [["a"], ["b"], ["a"]] ∧
    taskA2 ∈ [taskA, taskA2, taskB] ∧
    taskA2.id ∈ [["a"], ["b"], ["a"]].getD 0 [] ∧
    "b" ∈ taskA2.dependencies ∧
    ¬ ∃ M, M < 0 ∧ "b" ∈ [["a"], ["b"], ["a"]].getD M [] := by
  refine ⟨?_, by decide, by decide, by decide, ?_⟩
  · simp [calculateExecutionOrder, calcOrderLoop, depsDone, taskA, taskA2,
      taskB, sampleCtx]
  · rintro ⟨M, hM, _⟩
    exact Nat.not_lt_zero M hM

/-- C2 (amended with the pairwise-distinct-ids hypothesis that the
counterexample shows is necessary): for every task list with
pairwise-distinct task ids on which `calculateExecutionOrder` returns
normally, every prerequisite id of a task whose id lies in the batch at
index `N` appears in a batch at index strictly less than `N`. -/
theorem claim2_prereqs_in_earlier_batches
    (tasks : List InstrumentationTask) (order : List (List String))
    (hnd : (tasks.map (fun t => t.id)).Nodup)
    (h : calculateExecutionOrder tasks = .ok order) :
    ∀ t ∈ tasks, ∀ N : Nat, t.id ∈ order.getD N [] →
      ∀ d ∈ t.dependencies, ∃ M, M < N ∧ d ∈ order.getD M [] := by
  intro t ht N htN d hd
  have hres := calcOrderLoop_layers tasks.length tasks [] order le_rfl hnd h
    t ht N htN d hd
  rcases hres with hc | hres
  · exact absurd hc (List.not_mem_nil d)
  · exact hres

/-- Witness for C2 at the concrete input `[taskA, taskB]`, whose
execution order is `[[a], [b]]`: `taskB` sits in batch 1 and its
prerequisite `a` indeed appears in an earlier batch. -/
theorem claim2_witness : ∃ M, M < 1 ∧ "a" ∈ [["a"], ["b"]].getD M [] :=
  claim2_prereqs_in_earlier_batches [taskA, taskB] [["a"], ["b"]] (by decide)
    (by simp [calculateExecutionOrder, calcOrderLoop, depsDone, taskA, taskB,
      sampleCtx])
    taskB (by decide) 1 (by decide) "a" (by decide)

/-- If every task lying on a transitive dependency cycle of `remaining`
survives into `rest`, then a two-way reachable pair keeps its transitive
connection inside `rest`. -/
theorem transGen_restrict (remaining rest : List InstrumentationTask)
    (hkeep : ∀ x, Relation.TransGen (taskDep remaining) x x → x ∈ rest) :
    ∀ a b, Relation.TransGen (taskDep remaining) a b →
      Relation.TransGen (taskDep remaining) b a →
      Relation.TransGen (taskDep rest) a b := by
  intro a b h
  induction h with
  | single hab =>
    intro hba
    have hamem := hkeep _ ((Relation.TransGen.single hab).trans hba)
    have hbmem := hkeep _ (hba.trans (Relation.TransGen.single hab))
    exact Relation.TransGen.single ⟨hamem, hbmem, hab.2.2⟩
  | tail hab hbc ih =>
    intro hca
    have hmid := ih (Relation.TransGen.head hbc hca)
    have hbmem := hkeep _ (Relation.TransGen.head hbc (hca.trans hab))
    have hcmem := hkeep _ (hca.trans (hab.tail hbc))
    exact hmid.tail ⟨hbmem, hcmem, hbc.2.2⟩

/-- If the remaining tasks have pairwise-distinct ids, none of which is
already completed, then a transitive dependency cycle forces the
scheduling loop into the circular-dependency error. -/
theorem calcOrderLoop_cycle_error :
    ∀ (n : Nat) (remaining : List InstrumentationTask) (completed : List String),
      remaining.length ≤ n →
      (remaining.map (fun t => t.id)).Nodup →
      (∀ c ∈ completed, ∀ u ∈ remaining, u.id ≠ c) →
      (∃ t, Relation.TransGen (taskDep remaining) t t) →
      calcOrderLoop remaining completed =
        .error "Circular dependency detected in tasks" := by
  intro n
  induction n with
  | zero =>
    intro remaining completed hlen _ _ hcyc
    obtain ⟨t, ht⟩ := hcyc
    have hnil := List.length_eq_zero.mp (Nat.le_zero.mp hlen)
    subst hnil
    obtain ⟨u, hu, _⟩ := Relation.TransGen.head'_iff.mp ht
    exact absurd hu.1 (List.not_mem_nil t)
  | succ m ih =>
    intro remaining completed hlen hnd hdisj hcyc
    obtain ⟨t, ht⟩ := hcyc
    have hne : remaining ≠ [] := by
      obtain ⟨u, hu, _⟩ := Relation.TransGen.head'_iff.mp ht
      intro h0
      rw [h0] at hu
      exact absurd hu.1 (List.not_mem_nil t)
    by_cases hb : remaining.filter (depsDone completed) = []
    · rw [calcOrderLoop.eq_def]
      simp [List.isEmpty_iff, hne, hb]
    · have hkeep : ∀ x, Relation.TransGen (taskDep remaining) x x →
          x ∈ remaining.filter (fun s => !(depsDone completed s)) := by
        intro x hx
        obtain ⟨y, hxy, _⟩ := Relation.TransGen.head'_iff.mp hx
        refine List.mem_filter.mpr ⟨hxy.1, ?_⟩
        have hdx : depsDone completed x = false := by
          cases hdx : depsDone completed x
          · rfl
          · exfalso
            have hcont := List.all_eq_true.mp hdx y.id hxy.2.2
            have : y.id ∈ completed := List.elem_iff.mp hcont
            exact hdisj y.id this y hxy.2.1 rfl
        simp [hdx]
      have hcyc' : ∃ s, Relation.TransGen
          (taskDep (remaining.filter (fun s => !(depsDone completed s)))) s s :=
        ⟨t, transGen_restrict remaining _ hkeep t t ht ht⟩
      have hndrest : ((remaining.filter
          (fun s => !(depsDone completed s))).map (fun t => t.id)).Nodup :=
        ((List.filter_sublist remaining).map (fun t => t.id)).nodup hnd
      have hdisj' : ∀ c ∈ completed ++
          (remaining.filter (depsDone completed)).map (fun t => t.id),
          ∀ u ∈ remaining.filter (fun s => !(depsDone completed s)),
          u.id ≠ c := by
        intro c hc u hu
        have humem := (List.mem_filter.mp hu).1
        rcases List.mem_append.mp hc with hc1 | hc2
        · exact hdisj c hc1 u humem
        · obtain ⟨v, hv, hvid⟩ := List.mem_map.mp hc2
          have hvmem := (List.mem_filter.mp hv).1
          intro hueq
          have huv : u = v :=
            List.inj_on_of_nodup_map hnd humem hvmem (by rw [hueq, hvid])
          subst huv
          have h1 := (List.mem_filter.mp hu).2
          have h2 := (List.mem_filter.mp hv).2
          simp [h2] at h1
      have hlt := filter_not_depsDone_length_lt remaining completed hb
      have hres := ih _ _ (Nat.le_of_lt_succ (Nat.lt_of_lt_of_le hlt hlen))
        hndrest hdisj' hcyc'
      rw [calcOrderLoop.eq_def]
      simp [List.isEmpty_iff, hne, hb, hres]

/-! ### Claim C3 -/

/-- Concrete task with id `b` and no prerequisites (shares its id with
`taskB`). -/
def taskB2 : InstrumentationTask :=
  { id := "b", type := .service, targetFile := "b2.ts", priority := 3,
    dependencies := [], context := sampleCtx }

/-- C3 counterexample: with duplicate task ids the claim as stated fails.
`[taskA2, taskB, taskA, taskB2]` contains a genuine dependency cycle
(`taskA2` lists `b`, `taskB` lists `a`), yet the scheduler returns batches
normally instead of throwing, because the duplicate-id tasks `taskA` and
`taskB2` feed both cycle ids into the completed set. -/
theorem claim3_counterexample :
    (∃ t, Relation.TransGen (taskDep [taskA2, taskB, taskA, taskB2]) t t) ∧
    calculateExecutionOrder [taskA2, taskB, taskA, taskB2] =
      .ok [["a", "b"], ["a", "b"]] := by
  constructor
  · have h1 : taskDep [taskA2, taskB, taskA, taskB2] taskA2 taskB :=
      ⟨by decide, by decide, by decide⟩
    have h2 : taskDep [taskA2, taskB, taskA, taskB2] taskB taskA2 :=
      ⟨by decide, by decide, by decide⟩
    exact ⟨taskA2, (Relation.TransGen.single h1).tail h2⟩
  · simp [calculateExecutionOrder, calcOrderLoop, depsDone, taskA, taskA2,
      taskB, taskB2, sampleCtx]

/-- C3 (amended with the pairwise-distinct-ids hypothesis that the
counterexample shows is necessary): every call to
`calculateExecutionOrder` terminates, returning either batches or the
circular-dependency error; and on a task list with pairwise-distinct ids
containing a transitive dependency cycle it returns the fatal error
`Circular dependency detected in tasks` (so it neither loops forever nor
silently drops the cyclic tasks). -/
theorem claim3_termination_and_cycle_detection
    (tasks : List InstrumentationTask) :
    ((∃ order, calculateExecutionOrder tasks = .ok order) ∨
      calculateExecutionOrder tasks =
        .error "Circular dependency detected in tasks") ∧
    ((tasks.map (fun t => t.id)).Nodup →
      (∃ t, Relation.TransGen (taskDep tasks) t t) →
      calculateExecutionOrder tasks =
        .error "Circular dependency detected in tasks") := by
  constructor
  · exact calcOrderLoop_total tasks.length tasks [] le_rfl
  · intro hnd hcyc
    exact calcOrderLoop_cycle_error tasks.length tasks [] le_rfl hnd
      (fun c hc => absurd hc (List.not_mem_nil c)) hcyc

/-- Witness for C3 at the concrete two-task cycle `[taskA2, taskB]`
(`a` lists `b` as prerequisite and `b` lists `a`): the scheduler throws. -/
theorem claim3_witness :
    calculateExecutionOrder [taskA2, taskB] =
      .error "Circular dependency detected in tasks" := by
  have h1 : taskDep [taskA2, taskB] taskA2 taskB :=
    ⟨by decide, by decide, by decide⟩
  have h2 : taskDep [taskA2, taskB] taskB taskA2 :=
    ⟨by decide, by decide, by decide⟩
  exact (claim3_termination_and_cycle_detection [taskA2, taskB]).2 (by decide)
    ⟨taskA2, (Relation.TransGen.single h1).tail h2⟩

/-! ### Claim C10 -/

/-- A task whose prerequisite never enters the completed set keeps the
scheduling loop from ever emptying `remaining`, so the loop ends in the
circular-dependency error. -/
theorem calcOrderLoop_dangling_error :
    ∀ (n : Nat) (remaining : List InstrumentationTask) (completed : List String),
      remaining.length ≤ n →
      (∃ t ∈ remaining, ∃ d ∈ t.dependencies, d ∉ completed ∧
        ∀ u ∈ remaining, u.id ≠ d) →
      calcOrderLoop remaining completed =
        .error "Circular dependency detected in tasks" := by
  intro n
  induction n with
  | zero =>
    intro remaining completed hlen hd
    obtain ⟨t, ht, _⟩ := hd
    have hnil := List.length_eq_zero.mp (Nat.le_zero.mp hlen)
    subst hnil
    exact absurd ht (List.not_mem_nil t)
  | succ m ih =>
    intro remaining completed hlen hdang
    obtain ⟨t, ht, d, hd, hdc, hdid⟩ := hdang
    have hne : remaining ≠ [] := by
      intro h0
      rw [h0] at ht
      exact absurd ht (List.not_mem_nil t)
    by_cases hb : remaining.filter (depsDone completed) = []
    · rw [calcOrderLoop.eq_def]
      simp [List.isEmpty_iff, hne, hb]
    · have htdd : depsDone completed t = false := by
        cases hdx : depsDone completed t
        · rfl
        · exfalso
          have hcont := List.all_eq_true.mp hdx d hd
          exact hdc (List.elem_iff.mp hcont)
      have htrest : t ∈ remaining.filter (fun s => !(depsDone completed s)) :=
        List.mem_filter.mpr ⟨ht, by simp [htdd]⟩
      have hdang' : ∃ t ∈ remaining.filter (fun s => !(depsDone completed s)),
          ∃ d ∈ t.dependencies,
          d ∉ completed ++ (remaining.filter (depsDone completed)).map
            (fun s => s.id) ∧
          ∀ u ∈ remaining.filter (fun s => !(depsDone completed s)),
            u.id ≠ d := by
        refine ⟨t, htrest, d, hd, ?_, ?_⟩
        · intro hmem
          rcases List.mem_append.mp hmem with h1 | h2
          · exact hdc h1
          · obtain ⟨v, hv, hvid⟩ := List.mem_map.mp h2
            exact hdid v (List.mem_filter.mp hv).1 hvid
        · intro u hu
          exact hdid u (List.mem_filter.mp hu).1
      have hlt := filter_not_depsDone_length_lt remaining completed hb
      have hres := ih _ _ (Nat.le_of_lt_succ (Nat.lt_of_lt_of_le hlt hlen)) hdang'
      rw [calcOrderLoop.eq_def]
      simp [List.isEmpty_iff, hne, hb, hres]

/-- C10: on every task list in which some task lists a prerequisite id
matching no task of the list (a dangling reference; no cycle present), the
scheduler throws the same `Circular dependency detected in tasks` error
rather than scheduling the remaining tasks or reporting a distinct
missing-prerequisite error. -/
theorem claim10_dangling_prerequisite_error
    (tasks : List InstrumentationTask)
    (hdangling : ∃ t ∈ tasks, ∃ d ∈ t.dependencies, ∀ u ∈ tasks, u.id ≠ d)
    (hacyclic : ∀ t, ¬ Relation.TransGen (taskDep tasks) t t) :
    calculateExecutionOrder tasks =
      .error "Circular dependency detected in tasks" := by
  obtain ⟨t, ht, d, hd, hdid⟩ := hdangling
  exact calcOrderLoop_dangling_error tasks.length tasks [] le_rfl
    ⟨t, ht, d, hd, List.not_mem_nil d, hdid⟩

/-- A task whose prerequisite id `x` matches no task of the list. -/
def taskC : InstrumentationTask :=
  { id := "c", type := .http, targetFile := "c.ts", priority := 3,
    dependencies := ["x"], context := sampleCtx }

/-- Witness for C10 at the concrete input `[taskA, taskC]`: `taskC`
references the non-existent id `x`, and the scheduler throws. -/
theorem claim10_witness :
    calculateExecutionOrder [taskA, taskC] =
      .error "Circular dependency detected in tasks" := by
  apply claim10_dangling_prerequisite_error
  · exact ⟨taskC, by decide, "x", by decide, by decide⟩
  · apply noCycle_of_rank (fun t => t.dependencies.length)
    intro a b hab
    obtain ⟨ha, hb, hid⟩ := hab
    simp only [List.mem_cons, List.not_mem_nil, or_false] at ha hb
    rcases ha with rfl | rfl <;> rcases hb with rfl | rfl <;>
      revert hid <;> decide

/-! ### Task Graph Builder lemmas -/

/-- `selectWorkerType` never yields the dependency or config category. -/
theorem selectWorkerType_not_dep_config (f : FileAnalysis) (wt : WorkerType)
    (h : selectWorkerType f = some wt) :
    wt ≠ .dependency ∧ wt ≠ .config := by
  simp only [selectWorkerType] at h
  split_ifs at h <;> cases h <;> decide

/-- Every task emitted by the file-instrumentation loop has the config
task as sole prerequisite, priority 3, and a file category. -/
theorem mem_createFileTasksGo (analysis : CodebaseAnalysis) (cid : String) :
    ∀ (files : List FileAnalysis) (n : Nat) (t : InstrumentationTask),
      t ∈ createFileTasksGo analysis cid files n →
      t.dependencies = [cid] ∧ t.priority = 3 ∧
        t.type ≠ .dependency ∧ t.type ≠ .config := by
  intro files
  induction files with
  | nil =>
    intro n t ht
    simp [createFileTasksGo] at ht
  | cons f fs ihf =>
    intro n t ht
    cases hw : selectWorkerType f with
    | none =>
      rw [createFileTasksGo, hw] at ht
      exact ihf (n) t ht
    | some wt =>
      rw [createFileTasksGo, hw] at ht
      rcases List.mem_cons.mp ht with rfl | hmem
      · obtain ⟨h1, h2⟩ := selectWorkerType_not_dep_config f wt hw
        exact ⟨rfl, rfl, h1, h2⟩
      · exact ihf (n + 1) t hmem

/-- The category/target of the emitted file tasks is exactly the
`filterMap` of `selectWorkerType` over the analyzed files. -/
theorem createFileTasksGo_map (analysis : CodebaseAnalysis) (cid : String) :
    ∀ (files : List FileAnalysis) (n : Nat),
      (createFileTasksGo analysis cid files n).map
        (fun t => (t.type, t.targetFile)) =
      files.filterMap
        (fun f => (selectWorkerType f).map (fun wt => (wt, f.path))) := by
  intro files
  induction files with
  | nil =>
    intro n
    simp [createFileTasksGo]
  | cons f fs ihf =>
    intro n
    cases hw : selectWorkerType f with
    | none =>
      rw [createFileTasksGo, hw]
      simp [List.filterMap_cons, hw, ihf n]
    | some wt =>
      rw [createFileTasksGo, hw]
      simp [List.filterMap_cons, hw, ihf (n + 1)]

/-- The config-generation task `createPlan` builds when the dependency-gap
list is empty. -/
def planConfigTaskEmpty (analysis : CodebaseAnalysis) : InstrumentationTask :=
  { id := WorkerType.config.str ++ "-" ++ toString 1
    type := .config
    targetFile := "src/tracing.ts"
    priority := 2
    dependencies := []
    context := createTaskContext analysis [] }

/-- The dependency-update task `createPlan` builds when the dependency-gap
list is non-empty. -/
def planDepTask (analysis : CodebaseAnalysis) : InstrumentationTask :=
  { id := WorkerType.dependency.str ++ "-" ++ toString 1
    type := .dependency
    targetFile := "package.json"
    priority := 1
    dependencies := []
    context := createTaskContext analysis [] }

/-- The config-generation task `createPlan` builds when the dependency-gap
list is non-empty. -/
def planConfigTaskFull (analysis : CodebaseAnalysis) : InstrumentationTask :=
  { id := WorkerType.config.str ++ "-" ++ toString 2
    type := .config
    targetFile := "src/tracing.ts"
    priority := 2
    dependencies := [(planDepTask analysis).id]
    context := createTaskContext analysis [] }

/-- Decomposition of `createPlanTasks` when the dependency-gap list is
empty: just the config task followed by the file tasks. -/
theorem createPlanTasks_empty_gap (analysis : CodebaseAnalysis)
    (hm : analysis.dependencies.missing = []) :
    createPlanTasks analysis =
      planConfigTaskEmpty analysis ::
        createFileTasksGo analysis (planConfigTaskEmpty analysis).id
          analysis.files 1 := by
  simp [createPlanTasks, createFileInstrumentationTasks, hm,
    planConfigTaskEmpty]

/-- Decomposition of `createPlanTasks` when the dependency-gap list is
non-empty: the dependency task, the config task (depending on it), then the
file tasks. -/
theorem createPlanTasks_with_gap (analysis : CodebaseAnalysis)
    (hm : analysis.dependencies.missing ≠ []) :
    createPlanTasks analysis =
      planDepTask analysis :: planConfigTaskFull analysis ::
        createFileTasksGo analysis (planConfigTaskFull analysis).id
          analysis.files 2 := by
  have hm' : analysis.dependencies.missing.length > 0 := by
    cases hmm : analysis.dependencies.missing with
    | nil => exact absurd hmm hm
    | cons a l => simp [hmm]
  simp [createPlanTasks, createFileInstrumentationTasks, hm',
    planDepTask, planConfigTaskFull, List.filter_cons]

/-- No file-instrumentation task is of the dependency category. -/
theorem filter_dep_createFileTasksGo (analysis : CodebaseAnalysis)
    (cid : String) (files : List FileAnalysis) (n : Nat) :
    (createFileTasksGo analysis cid files n).filter
      (fun t => t.type = WorkerType.dependency) = [] :=
  List.filter_eq_nil_iff.mpr (fun s hs => by
    simp only [decide_eq_true_eq]
    exact (mem_createFileTasksGo analysis cid files n s hs).2.2.1)

/-- No file-instrumentation task is of the config category. -/
theorem filter_config_createFileTasksGo (analysis : CodebaseAnalysis)
    (cid : String) (files : List FileAnalysis) (n : Nat) :
    (createFileTasksGo analysis cid files n).filter
      (fun t => t.type = WorkerType.config) = [] :=
  List.filter_eq_nil_iff.mpr (fun s hs => by
    simp only [decide_eq_true_eq]
    exact (mem_createFileTasksGo analysis cid files n s hs).2.2.2)

/-! ### Claim C6 -/

/-- C6: `createPlan` emits exactly one dependency-update task (with no
prerequisites) when the dependency-gap list is non-empty and none when it
is empty; it always emits exactly one config-generation task whose
prerequisite list is exactly the ids of the emitted dependency-update
tasks (hence empty when the gap list is empty). -/
theorem claim6_dependency_and_config_tasks (analysis : CodebaseAnalysis) :
    ((createPlanTasks analysis).filter
        (fun t => t.type = WorkerType.dependency)).length =
      (if analysis.dependencies.missing = [] then 0 else 1) ∧
    (∀ t ∈ createPlanTasks analysis, t.type = .dependency →
      t.dependencies = []) ∧
    ((createPlanTasks analysis).filter
        (fun t => t.type = WorkerType.config)).length = 1 ∧
    (∀ t ∈ createPlanTasks analysis, t.type = .config →
      t.dependencies = ((createPlanTasks analysis).filter
        (fun t => t.type = WorkerType.dependency)).map (fun t => t.id)) ∧
    (analysis.dependencies.missing = [] →
      ∀ t ∈ createPlanTasks analysis, t.type = .config →
        t.dependencies = []) := by
  by_cases hm : analysis.dependencies.missing = []
  · rw [createPlanTasks_empty_gap analysis hm]
    refine ⟨?_, ?_, ?_, ?_, ?_⟩
    · rw [List.filter_cons, if_neg (by simp [planConfigTaskEmpty]),
        filter_dep_createFileTasksGo, if_pos hm]
      rfl
    · intro t ht htype
      rcases List.mem_cons.mp ht with rfl | hmem
      · exact absurd htype (by simp [planConfigTaskEmpty])
      · exact absurd htype
          (mem_createFileTasksGo analysis _ _ _ t hmem).2.2.1
    · rw [List.filter_cons, if_pos (by simp [planConfigTaskEmpty]),
        filter_config_createFileTasksGo]
      rfl
    · intro t ht htype
      rcases List.mem_cons.mp ht with rfl | hmem
      · rw [List.filter_cons, if_neg (by simp [planConfigTaskEmpty]),
          filter_dep_createFileTasksGo]
        rfl
      · exact absurd htype
          (mem_createFileTasksGo analysis _ _ _ t hmem).2.2.2
    · intro _ t ht htype
      rcases List.mem_cons.mp ht with rfl | hmem
      · rfl
      · exact absurd htype
          (mem_createFileTasksGo analysis _ _ _ t hmem).2.2.2
  · rw [createPlanTasks_with_gap analysis hm]
    refine ⟨?_, ?_, ?_, ?_, ?_⟩
    · rw [List.filter_cons, if_pos (by simp [planDepTask]),
        List.filter_cons, if_neg (by simp [planConfigTaskFull]),
        filter_dep_createFileTasksGo, if_neg hm]
      rfl
    · intro t ht htype
      rcases List.mem_cons.mp ht with rfl | hmem
      · rfl
      · rcases List.mem_cons.mp hmem with rfl | hmem2
        · exact absurd htype (by simp [planConfigTaskFull])
        · exact absurd htype
            (mem_createFileTasksGo analysis _ _ _ t hmem2).2.2.1
    · rw [List.filter_cons, if_neg (by simp [planDepTask]),
        List.filter_cons, if_pos (by simp [planConfigTaskFull]),
        filter_config_createFileTasksGo]
      rfl
    · intro t ht htype
      rcases List.mem_cons.mp ht with rfl | hmem
      · exact absurd htype (by simp [planDepTask])
      · rcases List.mem_cons.mp hmem with rfl | hmem2
        · rw [List.filter_cons, if_pos (by simp [planDepTask]),
            List.filter_cons, if_neg (by simp [planConfigTaskFull]),
            filter_dep_createFileTasksGo]
          rfl
        · exact absurd htype
            (mem_createFileTasksGo analysis _ _ _ t hmem2).2.2.2
    · intro hmm
      exact absurd hmm hm

/-- A concrete analysis with one missing dependency and no files. -/
def noFilesAnalysis : CodebaseAnalysis :=
  { files := []
    dependencies := { missing := ["@opentelemetry/sdk-node"] }
    framework := "express"
    entryPoint := "src/index.ts" }

/-- A concrete analysis with no missing dependencies and no files. -/
def emptyGapAnalysis : CodebaseAnalysis :=
  { files := []
    dependencies := { missing := [] }
    framework := "express"
    entryPoint := "src/index.ts" }

/-- Witness for C6: at a concrete analysis with one missing dependency the
plan has one dependency task and one config task, and at a concrete
analysis with no gap the config task has no prerequisites. -/
theorem claim6_witness :
    ((createPlanTasks noFilesAnalysis).filter
        (fun t => t.type = WorkerType.dependency)).length = 1 ∧
    ((createPlanTasks noFilesAnalysis).filter
        (fun t => t.type = WorkerType.config)).length = 1 ∧
    (planConfigTaskEmpty emptyGapAnalysis).dependencies = [] := by
  have h := claim6_dependency_and_config_tasks noFilesAnalysis
  have h0 := claim6_dependency_and_config_tasks emptyGapAnalysis
  refine ⟨?_, h.2.2.1, ?_⟩
  · rw [h.1]
    decide
  · exact h0.2.2.2.2 rfl (planConfigTaskEmpty emptyGapAnalysis)
      (by rw [createPlanTasks_empty_gap emptyGapAnalysis rfl]
          exact List.mem_cons_self _ _) rfl

/-! ### Claim C7 -/

/-- C7: the plan contains one file-instrumentation task exactly per file
whose role maps to a known category (in order, with the mapped category and
the file's path), every file-instrumentation task's sole prerequisite is
the config task's id, and the role mapping sends `route` to http,
`service` to service, and every role other than `route`/`service`/`utility`
to no task at all (silent skip). -/
theorem claim7_file_task_emission (analysis : CodebaseAnalysis) :
    ((createPlanTasks analysis).filter
        (fun t => t.type ≠ WorkerType.dependency ∧
          t.type ≠ WorkerType.config)).map
      (fun t => (t.type, t.targetFile)) =
      analysis.files.filterMap
        (fun f => (selectWorkerType f).map (fun wt => (wt, f.path))) ∧
    (∀ t ∈ createPlanTasks analysis,
      t.type ≠ .dependency → t.type ≠ .config →
      t.dependencies = ((createPlanTasks analysis).filter
        (fun t => t.type = WorkerType.config)).map (fun t => t.id)) ∧
    (∀ f : FileAnalysis, f.type = "route" →
      selectWorkerType f = some .http) ∧
    (∀ f : FileAnalysis, f.type = "service" →
      selectWorkerType f = some .service) ∧
    (∀ f : FileAnalysis, f.type ≠ "route" → f.type ≠ "service" →
      f.type ≠ "utility" → selectWorkerType f = Option.none) := by
  refine ⟨?_, ?_, ?_, ?_, ?_⟩
  · have hkeep : ∀ (cid : String) (files : List FileAnalysis) (n : Nat),
        (createFileTasksGo analysis cid files n).filter
          (fun t => t.type ≠ WorkerType.dependency ∧
            t.type ≠ WorkerType.config) =
        createFileTasksGo analysis cid files n := by
      intro cid files n
      rw [List.filter_eq_self]
      intro s hs
      have h := mem_createFileTasksGo analysis cid files n s hs
      simp [h.2.2.1, h.2.2.2]
    by_cases hm : analysis.dependencies.missing = []
    · rw [createPlanTasks_empty_gap analysis hm, List.filter_cons,
        if_neg (by simp [planConfigTaskEmpty]), hkeep,
        createFileTasksGo_map]
    · rw [createPlanTasks_with_gap analysis hm, List.filter_cons,
        if_neg (by simp [planDepTask]), List.filter_cons,
        if_neg (by simp [planConfigTaskFull]), hkeep,
        createFileTasksGo_map]
  · intro t ht h1 h2
    by_cases hm : analysis.dependencies.missing = []
    · rw [createPlanTasks_empty_gap analysis hm] at ht ⊢
      rw [List.filter_cons, if_pos (by simp [planConfigTaskEmpty]),
        filter_config_createFileTasksGo]
      rcases List.mem_cons.mp ht with rfl | hmem
      · exact absurd rfl h2
      · exact (mem_createFileTasksGo analysis _ _ _ t hmem).1
    · rw [createPlanTasks_with_gap analysis hm] at ht ⊢
      rw [List.filter_cons, if_neg (by simp [planDepTask]),
        List.filter_cons, if_pos (by simp [planConfigTaskFull]),
        filter_config_createFileTasksGo]
      rcases List.mem_cons.mp ht with rfl | hmem
      · exact absurd rfl h1
      · rcases List.mem_cons.mp hmem with rfl | hmem2
        · exact absurd rfl h2
        · exact (mem_createFileTasksGo analysis _ _ _ t hmem2).1
  · intro f hf
    simp [selectWorkerType, hf]
  · intro f hf
    rw [selectWorkerType, hf]
    rw [if_neg (by decide), if_pos rfl]
  · intro f h1 h2 h3
    rw [selectWorkerType, if_neg h1, if_neg h2, if_neg h3]

/-- A concrete analysis with one route file and one middleware file. -/
def routeAnalysis : CodebaseAnalysis :=
  { files := [{ path := "src/routes/users.ts", type := "route" },
      { path := "src/middleware/auth.ts", type := "middleware" }]
    dependencies := { missing := [] }
    framework := "express"
    entryPoint := "src/index.ts" }

/-- Witness for C7 at `routeAnalysis`: exactly one file task is emitted
(the http task for the route file; the middleware file is skipped), and
the role mapping behaves as claimed on concrete files. -/
theorem claim7_witness :
    ((createPlanTasks routeAnalysis).filter
        (fun t => t.type ≠ WorkerType.dependency ∧
          t.type ≠ WorkerType.config)).map
      (fun t => (t.type, t.targetFile)) =
      [(WorkerType.http, "src/routes/users.ts")] ∧
    selectWorkerType { path := "src/routes/users.ts", type := "route" } =
      some .http ∧
    selectWorkerType { path := "src/middleware/auth.ts", type := "middleware" } =
      Option.none := by
  refine ⟨?_, ?_, ?_⟩
  · rw [(claim7_file_task_emission routeAnalysis).1]
    decide
  · exact (claim7_file_task_emission routeAnalysis).2.2.1 _ rfl
  · exact (claim7_file_task_emission routeAnalysis).2.2.2.2 _
      (by decide) (by decide) (by decide)

/-! ### Claim C8 -/

/-- The concrete scenario of the spec: one missing dependency, three route
files, two service files, no utility files. -/
def scenarioAnalysis : CodebaseAnalysis :=
  { files := [⟨"src/routes/users.ts", "route"⟩,
      ⟨"src/routes/orders.ts", "route"⟩,
      ⟨"src/routes/products.ts", "route"⟩,
      ⟨"src/services/userService.ts", "service"⟩,
      ⟨"src/services/orderService.ts", "service"⟩]
    dependencies := { missing := ["@opentelemetry/sdk-node"] }
    framework := "express"
    entryPoint := "src/index.ts" }

/-- C8: on the concrete scenario (1 missing dependency, 3 route files,
2 service files, 0 utility files) the plan has exactly 7 tasks — one
dependency task, one config task, three http tasks, two service tasks —
and the execution order is exactly three batches: the dependency task,
then the config task, then all five file tasks. -/
theorem claim8_concrete_scenario :
    (createPlanTasks scenarioAnalysis).length = 7 ∧
    (createPlanTasks scenarioAnalysis).map
        (fun t => (t.id, t.type, t.dependencies)) =
      [("dependency-1", WorkerType.dependency, ([] : List String)),
       ("config-2", WorkerType.config, ["dependency-1"]),
       ("http-3", WorkerType.http, ["config-2"]),
       ("http-4", WorkerType.http, ["config-2"]),
       ("http-5", WorkerType.http, ["config-2"]),
       ("service-6", WorkerType.service, ["config-2"]),
       ("service-7", WorkerType.service, ["config-2"])] ∧
    calculateExecutionOrder (createPlanTasks scenarioAnalysis) =
      .ok [["dependency-1"], ["config-2"],
        ["http-3", "http-4", "http-5", "service-6", "service-7"]] := by
  have htasks : createPlanTasks scenarioAnalysis =
      [⟨"dependency-1", .dependency, "package.json", 1, [],
        createTaskContext scenarioAnalysis []⟩,
       ⟨"config-2", .config, "src/tracing.ts", 2, ["dependency-1"],
        createTaskContext scenarioAnalysis []⟩,
       ⟨"http-3", .http, "src/routes/users.ts", 3, ["config-2"],
        createTaskContext scenarioAnalysis [⟨"src/routes/users.ts", "route"⟩]⟩,
       ⟨"http-4", .http, "src/routes/orders.ts", 3, ["config-2"],
        createTaskContext scenarioAnalysis [⟨"src/routes/orders.ts", "route"⟩]⟩,
       ⟨"http-5", .http, "src/routes/products.ts", 3, ["config-2"],
        createTaskContext scenarioAnalysis [⟨"src/routes/products.ts", "route"⟩]⟩,
       ⟨"service-6", .service, "src/services/userService.ts", 3, ["config-2"],
        createTaskContext scenarioAnalysis
          [⟨"src/services/userService.ts", "service"⟩]⟩,
       ⟨"service-7", .service, "src/services/orderService.ts", 3, ["config-2"],
        createTaskContext scenarioAnalysis
          [⟨"src/services/orderService.ts", "service"⟩]⟩] := by
    decide
  refine ⟨by rw [htasks]; rfl, by rw [htasks]; decide, ?_⟩
  rw [htasks]
  simp [calculateExecutionOrder, calcOrderLoop, depsDone, createTaskContext]

/-! ### Batch Executor lemmas -/

/-- Error collection distributes over the starting accumulator. -/
theorem collectErrors_foldl_append :
    ∀ (L : List WorkerResult) (E : List String),
      L.foldl collectErrors E = E ++ L.foldl collectErrors [] := by
  intro L
  induction L with
  | nil =>
    intro E
    simp
  | cons r L ihL =>
    intro E
    rw [List.foldl_cons, List.foldl_cons, ihL (collectErrors E r),
      ihL (collectErrors [] r)]
    by_cases hc : (!r.success && r.errors.isSome) = true
    · simp [collectErrors, hc, List.append_assoc]
    · simp [collectErrors, hc]

/-- Every error string of a failed result in `L` ends up in the collected
error list. -/
theorem mem_collectErrors_foldl :
    ∀ (L : List WorkerResult) (r : WorkerResult), r ∈ L →
      r.success = false → ∀ e ∈ r.errors.getD [],
      e ∈ L.foldl collectErrors [] := by
  intro L
  induction L with
  | nil =>
    intro r hr
    exact absurd hr (List.not_mem_nil r)
  | cons a L ihL =>
    intro r hr hs e he
    rw [List.foldl_cons, collectErrors_foldl_append]
    rcases List.mem_cons.mp hr with rfl | hmem
    · apply List.mem_append_left
      cases herr : r.errors with
      | none =>
        rw [herr] at he
        exact absurd he (List.not_mem_nil e)
      | some l =>
        rw [herr] at he
        simp only [Option.getD_some] at he
        simp [collectErrors, hs, herr]
        exact he
    · exact List.mem_append_right _ (ihL r hmem hs e he)

/-- Closed form of the executor's batch loop: the results are the
concatenation of the per-batch result lists and the errors are the fold of
`collectErrors` over those results. -/
theorem executorFoldl_spec (beh : InstrumentationTask → WorkerBehaviour)
    (tasks : List InstrumentationTask) :
    ∀ (batches : List (List String)) (acc : List WorkerResult × List String),
      batches.foldl (executeBatchStep beh tasks) acc =
        (acc.1 ++ (batches.map (fun bids =>
            (tasks.filter (fun task => bids.contains task.id)).map
              (fun task => executeTask beh task))).flatten,
         acc.2 ++ ((batches.map (fun bids =>
            (tasks.filter (fun task => bids.contains task.id)).map
              (fun task => executeTask beh task))).flatten).foldl
              collectErrors []) := by
  intro batches
  induction batches with
  | nil =>
    intro acc
    simp
  | cons b bs ihb =>
    intro acc
    rw [List.foldl_cons, ihb]
    simp only [executeBatchStep, List.map_cons, List.flatten_cons,
      Prod.mk.injEq]
    constructor
    · rw [List.append_assoc]
    · rw [List.foldl_append,
        collectErrors_foldl_append
          (((tasks.filter (fun task => b.contains task.id)).map
            (fun task => executeTask beh task))) acc.2,
        collectErrors_foldl_append _
          (((tasks.filter (fun task => b.contains task.id)).map
            (fun task => executeTask beh task)).foldl collectErrors []),
        List.append_assoc]

/-! ### Claim C4 -/

/-- C4: for every plan and per-task worker behaviour, the executor's
result list is exactly the concatenation of the per-batch results (so a
failing task never suppresses its batch siblings or later batches), the
overall success flag holds iff every worker result succeeded, and the
aggregated error list is the collected errors of the failed results —
containing in particular every error string of every failed result. -/
theorem claim4_executor_aggregation
    (beh : InstrumentationTask → WorkerBehaviour) (plan : OrchestrationPlan) :
    (workerExecutorExecute beh plan).workerResults =
      (plan.executionOrder.map (fun bids =>
        (plan.tasks.filter (fun task => bids.contains task.id)).map
          (fun task => executeTask beh task))).flatten ∧
    ((workerExecutorExecute beh plan).success = true ↔
      ∀ r ∈ (workerExecutorExecute beh plan).workerResults,
        r.success = true) ∧
    (∀ t ∈ plan.tasks, ∀ bids ∈ plan.executionOrder,
      bids.contains t.id →
      executeTask beh t ∈ (workerExecutorExecute beh plan).workerResults) ∧
    (workerExecutorExecute beh plan).errors =
      (workerExecutorExecute beh plan).workerResults.foldl collectErrors [] ∧
    (∀ r ∈ (workerExecutorExecute beh plan).workerResults,
      r.success = false → ∀ e ∈ r.errors.getD [],
      e ∈ (workerExecutorExecute beh plan).errors) := by
  have hspec := executorFoldl_spec beh plan.tasks plan.executionOrder ([], [])
  have hres : (workerExecutorExecute beh plan).workerResults =
      (plan.executionOrder.map (fun bids =>
        (plan.tasks.filter (fun task => bids.contains task.id)).map
          (fun task => executeTask beh task))).flatten := by
    simp only [workerExecutorExecute, hspec]
    simp
  have herr : (workerExecutorExecute beh plan).errors =
      (workerExecutorExecute beh plan).workerResults.foldl collectErrors [] := by
    simp only [workerExecutorExecute, hspec]
    simp
  refine ⟨hres, ?_, ?_, herr, ?_⟩
  · have hsucc : (workerExecutorExecute beh plan).success =
        (workerExecutorExecute beh plan).workerResults.all
          (fun r => r.success) := by
      simp only [workerExecutorExecute, hspec]
    rw [hsucc, List.all_eq_true]
  · intro t ht bids hbids hcont
    rw [hres]
    refine List.mem_flatten.mpr ⟨(plan.tasks.filter
      (fun task => bids.contains task.id)).map
        (fun task => executeTask beh task), List.mem_map_of_mem _ hbids, ?_⟩
    exact List.mem_map_of_mem _ (List.mem_filter.mpr ⟨ht, hcont⟩)
  · intro r hr hs e he
    rw [herr]
    exact mem_collectErrors_foldl _ r hr hs e he

/-- A worker behaviour where every external call succeeds. -/
def okBehaviour : WorkerBehaviour :=
  { readFileResult := .ok "original file content"
    completionResult := .ok "instrumented file content"
    extractResult := fun s => s
    jsonParseCheck := fun _ => .ok () }

/-- A worker behaviour whose file read throws (a simulated exception
inside the worker call). -/
def failBehaviour : WorkerBehaviour :=
  { readFileResult := .error "ENOENT: package.json missing"
    completionResult := .ok "instrumented file content"
    extractResult := fun s => s
    jsonParseCheck := fun _ => .ok () }

/-- Behaviour where the external calls of the task with id `a` throw and
every other task's calls succeed. -/
def mixedBehaviour : InstrumentationTask → WorkerBehaviour :=
  fun t => if t.id = "a" then failBehaviour else okBehaviour

/-- A concrete two-batch plan: tasks `a` and `b` run in the first batch,
task `c` in the second. -/
def smallPlan : OrchestrationPlan :=
  { analysis := emptyGapAnalysis
    tasks := [taskA, taskB, taskC]
    executionOrder := [["a", "b"], ["c"]]
    estimatedDuration := "30 seconds" }

/-- Witness for C4 at `smallPlan` under `mixedBehaviour` (task `a` fails):
the later-batch task `c` still produced a result, the failing task's error
string is in the aggregated error list, and the overall success flag is
false. -/
theorem claim4_witness :
    executeTask mixedBehaviour taskC ∈
      (workerExecutorExecute mixedBehaviour smallPlan).workerResults ∧
    "ENOENT: package.json missing" ∈
      (workerExecutorExecute mixedBehaviour smallPlan).errors ∧
    (workerExecutorExecute mixedBehaviour smallPlan).success = false := by
  have h := claim4_executor_aggregation mixedBehaviour smallPlan
  have hcmem : executeTask mixedBehaviour taskC ∈
      (workerExecutorExecute mixedBehaviour smallPlan).workerResults :=
    h.2.2.1 taskC (by decide) ["c"] (by decide) (by decide)
  have hamem : executeTask mixedBehaviour taskA ∈
      (workerExecutorExecute mixedBehaviour smallPlan).workerResults :=
    h.2.2.1 taskA (by decide) ["a", "b"] (by decide) (by decide)
  have hafail : (executeTask mixedBehaviour taskA).success = false := rfl
  refine ⟨hcmem, ?_, ?_⟩
  · exact h.2.2.2.2 (executeTask mixedBehaviour taskA) hamem hafail
      "ENOENT: package.json missing" (by decide)
  · cases hsucc : (workerExecutorExecute mixedBehaviour smallPlan).success
    · rfl
    · exfalso
      have := (h.2.1.mp hsucc) (executeTask mixedBehaviour taskA) hamem
      rw [hafail] at this
      exact Bool.false_ne_true this

/-! ### Claim C5 -/

/-- C5: for every behaviour of the external calls (including throwing
ones), each worker's execute returns a `WorkerResult` — when the try-block
fails with error `e` it returns the failure result built from `e` (with
`success = false`), and when the try-block succeeds it returns that
success result unchanged; no exception escapes the task boundary. -/
theorem claim5_workers_never_throw (beh : WorkerBehaviour)
    (task : InstrumentationTask) (wt : WorkerType) :
    (∀ e, dependencyWorkerBody beh task = .error e →
      dependencyWorkerExecute beh task =
        createFailureResult .dependency task.id e [] ∧
      (dependencyWorkerExecute beh task).success = false) ∧
    (∀ r, dependencyWorkerBody beh task = .ok r →
      dependencyWorkerExecute beh task = r) ∧
    (∀ e, configWorkerBody beh task = .error e →
      configWorkerExecute beh task =
        createFailureResult .config task.id e [] ∧
      (configWorkerExecute beh task).success = false) ∧
    (∀ r, configWorkerBody beh task = .ok r →
      configWorkerExecute beh task = r) ∧
    (∀ e, fileInstrumentationWorkerBody wt beh task = .error e →
      fileInstrumentationWorkerExecute wt beh task =
        createFailureResult wt task.id e [] ∧
      (fileInstrumentationWorkerExecute wt beh task).success = false) ∧
    (∀ r, fileInstrumentationWorkerBody wt beh task = .ok r →
      fileInstrumentationWorkerExecute wt beh task = r) := by
  refine ⟨?_, ?_, ?_, ?_, ?_, ?_⟩
  · intro e h
    constructor
    · simp [dependencyWorkerExecute, h]
    · simp [dependencyWorkerExecute, h, createFailureResult]
  · intro r h
    simp [dependencyWorkerExecute, h]
  · intro e h
    constructor
    · simp [configWorkerExecute, h]
    · simp [configWorkerExecute, h, createFailureResult]
  · intro r h
    simp [configWorkerExecute, h]
  · intro e h
    constructor
    · simp [fileInstrumentationWorkerExecute, h]
    · simp [fileInstrumentationWorkerExecute, h, createFailureResult]
  · intro r h
    simp [fileInstrumentationWorkerExecute, h]

/-- Witness for C5: under `failBehaviour` (file read throws) the
dependency worker's try-block fails, and the execute method returns the
converted failure result instead of propagating the exception. -/
theorem claim5_witness :
    dependencyWorkerExecute failBehaviour taskA =
      createFailureResult .dependency taskA.id
        "ENOENT: package.json missing" [] ∧
    (dependencyWorkerExecute failBehaviour taskA).success = false :=
  (claim5_workers_never_throw failBehaviour taskA .http).1
    "ENOENT: package.json missing" rfl

/-! ### Claim C9 -/

/-- The invariant C9 states for every worker-produced result: a failed
result carries a non-empty error list and no changes; a successful result
carries an empty error list. -/
def resultInvariant (r : WorkerResult) : Prop :=
  (r.success = false →
    (∃ l, r.errors = some l ∧ l ≠ []) ∧ r.changes = []) ∧
  (r.success = true → r.errors = some [])

/-- Failure results satisfy the C9 invariant. -/
theorem resultInvariant_failure (wt : WorkerType) (taskId e : String) :
    resultInvariant (createFailureResult wt taskId e []) := by
  constructor
  · intro _
    exact ⟨⟨[e], rfl, by simp⟩, rfl⟩
  · intro h
    simp [createFailureResult] at h

/-- Results with `success = true` and empty error list satisfy the C9
invariant. -/
theorem resultInvariant_of_success (r : WorkerResult)
    (h1 : r.success = true) (h2 : r.errors = some []) :
    resultInvariant r := by
  constructor
  · intro hf
    rw [h1] at hf
    exact absurd hf (by simp)
  · intro _
    exact h2

/-- The dependency worker's try-block only succeeds with a success
result. -/
theorem dependencyWorkerBody_ok_success (beh : WorkerBehaviour)
    (task : InstrumentationTask) (r : WorkerResult)
    (h : dependencyWorkerBody beh task = .ok r) :
    r.success = true ∧ r.errors = some [] := by
  rw [dependencyWorkerBody] at h
  cases hrf : beh.readFileResult with
  | error e => simp [hrf] at h
  | ok orig =>
    simp only [hrf] at h
    cases hcomp : beh.completionResult with
    | error e => simp [hcomp] at h
    | ok resp =>
      simp only [hcomp] at h
      cases hjson : beh.jsonParseCheck (beh.extractResult resp) with
      | error e => simp [hjson] at h
      | ok u =>
        simp only [hjson, Except.ok.injEq] at h
        subst h
        exact ⟨rfl, rfl⟩

/-- The config worker's try-block only succeeds with a success result. -/
theorem configWorkerBody_ok_success (beh : WorkerBehaviour)
    (task : InstrumentationTask) (r : WorkerResult)
    (h : configWorkerBody beh task = .ok r) :
    r.success = true ∧ r.errors = some [] := by
  rw [configWorkerBody] at h
  cases hcomp : beh.completionResult with
  | error e => simp [hcomp] at h
  | ok resp =>
    simp only [hcomp, Except.ok.injEq] at h
    subst h
    exact ⟨rfl, rfl⟩

/-- The file-instrumentation worker's try-block only succeeds with a
success result. -/
theorem fileInstrumentationWorkerBody_ok_success (wt : WorkerType)
    (beh : WorkerBehaviour) (task : InstrumentationTask) (r : WorkerResult)
    (h : fileInstrumentationWorkerBody wt beh task = .ok r) :
    r.success = true ∧ r.errors = some [] := by
  rw [fileInstrumentationWorkerBody] at h
  cases hrf : beh.readFileResult with
  | error e => simp [hrf] at h
  | ok orig =>
    simp only [hrf] at h
    cases hcomp : beh.completionResult with
    | error e => simp [hcomp] at h
    | ok resp =>
      simp only [hcomp, Except.ok.injEq] at h
      subst h
      exact ⟨rfl, rfl⟩

/-- C9: every result produced by a worker's execute method satisfies the
invariant — `success = false` implies a non-empty error list and empty
change list, and `success = true` implies an empty error list — for every
behaviour of the external calls. -/
theorem claim9_worker_result_invariant (beh : WorkerBehaviour)
    (task : InstrumentationTask) (wt : WorkerType) :
    resultInvariant (dependencyWorkerExecute beh task) ∧
    resultInvariant (configWorkerExecute beh task) ∧
    resultInvariant (fileInstrumentationWorkerExecute wt beh task) := by
  refine ⟨?_, ?_, ?_⟩
  · cases hbody : dependencyWorkerBody beh task with
    | error e =>
      have hx : dependencyWorkerExecute beh task =
          createFailureResult .dependency task.id e [] := by
        simp [dependencyWorkerExecute, hbody]
      rw [hx]
      exact resultInvariant_failure _ _ _
    | ok r =>
      have hx : dependencyWorkerExecute beh task = r := by
        simp [dependencyWorkerExecute, hbody]
      rw [hx]
      obtain ⟨h1, h2⟩ := dependencyWorkerBody_ok_success beh task r hbody
      exact resultInvariant_of_success r h1 h2
  · cases hbody : configWorkerBody beh task with
    | error e =>
      have hx : configWorkerExecute beh task =
          createFailureResult .config task.id e [] := by
        simp [configWorkerExecute, hbody]
      rw [hx]
      exact resultInvariant_failure _ _ _
    | ok r =>
      have hx : configWorkerExecute beh task = r := by
        simp [configWorkerExecute, hbody]
      rw [hx]
      obtain ⟨h1, h2⟩ := configWorkerBody_ok_success beh task r hbody
      exact resultInvariant_of_success r h1 h2
  · cases hbody : fileInstrumentationWorkerBody wt beh task with
    | error e =>
      have hx : fileInstrumentationWorkerExecute wt beh task =
          createFailureResult wt task.id e [] := by
        simp [fileInstrumentationWorkerExecute, hbody]
      rw [hx]
      exact resultInvariant_failure _ _ _
    | ok r =>
      have hx : fileInstrumentationWorkerExecute wt beh task = r := by
        simp [fileInstrumentationWorkerExecute, hbody]
      rw [hx]
      obtain ⟨h1, h2⟩ :=
        fileInstrumentationWorkerBody_ok_success wt beh task r hbody
      exact resultInvariant_of_success r h1 h2

/-- Witness for C9: the failed dependency-worker result under
`failBehaviour` has a non-empty error list and no changes, and the
successful config-worker result under `okBehaviour` has an empty error
list. -/
theorem claim9_witness :
    ((∃ l, (dependencyWorkerExecute failBehaviour taskA).errors = some l ∧
      l ≠ []) ∧
      (dependencyWorkerExecute failBehaviour taskA).changes = []) ∧
    (configWorkerExecute okBehaviour taskA).errors = some [] :=
  ⟨(claim9_worker_result_invariant failBehaviour taskA .http).1.1 rfl,
   (claim9_worker_result_invariant okBehaviour taskA .http).2.1.2 rfl⟩

end OtelOrch
